import Mathlib

/-!
Shallow embedding of the recommendation pipeline of `src/core/recommendation.py`
(repository `skillpick`), together with the cache model of
`src/core/models.py` (`TopicRecommendationCache`), and proofs checking the
frozen claims of the specification against it.

Modelling conventions:
* Python dictionaries flowing through the pipeline become Lean structures;
  a `r.get(key, default)` on an external JSON object is modelled by an
  `Option` field read with `Option.getD`.
* External I/O (HTTP requests, the DuckDuckGo library, the LLM endpoint) is
  modelled by explicit response values passed in: `HttpResp` holds either a
  network/timeout failure (a `requests` exception in the source) or a status
  code plus a body.  Bodies that the source obtains through `response.json()`
  or a regex scan are modelled post-parse: `none`/`malformed` stands for a
  body on which the parse raises, and a match list stands for the regex
  matches found in the page text.  Everything the source does *after* those
  library calls is embedded faithfully.
* Python `str` operations are re-implemented over `List Char` so that all
  definitions evaluate inside the kernel: `pyTake` is `s[:n]`, `pySub` is
  `in`, `pyLower` is `.lower()` (ASCII, as the curated keys are ASCII or
  Chinese, which both lowercasings leave unchanged), `pyRemoveAll` is
  `.replace(pat, '')`.
* Exceptions caught by an adapter's `try/except` are modelled by the failure
  constructors of its response type; the adapter functions are total, which
  renders "never throws past its boundary".
-/

namespace SkillPick

/-- Python `s[:n]` on a string (first `n` characters). -/
def pyTake (s : String) (n : Nat) : String := ⟨s.data.take n⟩

/-- Python `f"{x}"` on an optional value: a missing value renders as `"None"`. -/
def pyStr : Option String → String
  | some s => s
  | none => "None"

/-- Auxiliary scan for `pySub`: substring containment on character lists. -/
def subAux (pat : List Char) : List Char → Bool
  | [] => pat.isEmpty
  | c :: rest => pat.isPrefixOf (c :: rest) || subAux pat rest

/-- Python `pat in s` on strings (substring containment). -/
def pySub (pat s : String) : Bool := subAux pat.data s.data

/-- Python `s.startswith(pre)`. -/
def pyStarts (pre s : String) : Bool := pre.data.isPrefixOf s.data

/-- Python `s.lower()` (ASCII case folding, enough for the curated keys). -/
def pyLower (s : String) : String := ⟨s.data.map Char.toLower⟩

/-- Fuel-driven core of `pyRemoveAll`; the fuel is the input length, which
bounds the number of scanning steps. -/
def pyRemoveAllAux (pat : List Char) : Nat → List Char → List Char
  | 0, l => l
  | _ + 1, [] => []
  | fuel + 1, c :: rest =>
      if pat.isPrefixOf (c :: rest) then pyRemoveAllAux pat fuel (rest.drop (pat.length - 1))
      else c :: pyRemoveAllAux pat fuel rest

/-- Python `s.replace(pat, '')`: delete every (left-to-right, non-overlapping)
occurrence of `pat`. All `.replace` calls in the source replace by `''`. -/
def pyRemoveAll (s pat : String) : String := ⟨pyRemoveAllAux pat.data s.data.length s.data⟩

/-- Specification-side predicate for "well-formed absolute URL": the string
carries an explicit `http://` or `https://` scheme (every URL the source
itself constructs is of this shape). -/
def isHttpUrl (s : String) : Bool := pyStarts "http://" s || pyStarts "https://" s

/-- Candidate dictionary shape shared by all source adapters
(`title/description/duration/play/author/url/provider` keys in the source). -/
structure Candidate where
  title : String
  description : String
  duration : String
  play : Nat
  author : String
  url : String
  provider : String
  deriving DecidableEq

/-- Output contract of the pipeline: the `{'title':…, 'url':…, 'reason':…}`
dictionary returned by `get_ai_video_recommendation`. -/
structure Recommendation where
  title : String
  url : String
  reason : String
  deriving DecidableEq

/-- Proficiency level (`Topic.LEVEL_CHOICES` in `src/core/models.py`). -/
inductive Level
  | beginner
  | intermediate
  | advanced
  deriving DecidableEq

/-- Database code of a level (the stored `current_level` value). -/
def Level.code : Level → String
  | .beginner => "beginner"
  | .intermediate => "intermediate"
  | .advanced => "advanced"

/-- Display label of a level (`get_current_level_display()`). -/
def Level.display : Level → String
  | .beginner => "入门"
  | .intermediate => "进阶"
  | .advanced => "精通"

/-- The `Topic` attributes the pipeline reads. -/
structure Topic where
  title : String
  current_level : Level
  description : String
  deriving DecidableEq

/-- The `LearningLog` attribute the pipeline reads (the latest feedback). -/
structure LearningLog where
  feedback : String
  deriving DecidableEq

/-- Persisted `TopicRecommendationCache` row, with `created_at` as an
abstract day count (`video_duration` is never written nor read by the
pipeline and is omitted). -/
structure CacheEntry where
  topic_keyword : String
  level : String
  video_title : String
  video_url : String
  reason : String
  created_at : Nat
  deriving DecidableEq

/-- Outcome of one HTTP request: a raised `requests` exception
(connection error or timeout), or a response with a status code and a body. -/
inductive HttpResp (β : Type)
  | netFail
  | resp (status : Nat) (body : β)
  deriving DecidableEq

/-- The curated static catalog `HARDCODED_VIDEOS`, in its literal (insertion)
order, as `(key, title, url)` triples. -/
def HARDCODED_VIDEOS : List (String × String × String) :=
  [("python", "Python 教程 - 廖雪峰", "https://www.bilibili.com/video/BV1wD4y1o7AS"),
   ("java", "Java 零基础教程 - 韩顺平", "https://www.bilibili.com/video/BV1fh411y7R8"),
   ("英语", "英语口语天天练", "https://www.bilibili.com/video/BV154411u7Uf"),
   ("健身", "帕梅拉 10分钟全身燃脂", "https://www.bilibili.com/video/BV1pK411p7d6"),
   ("足球", "足球基础教学 - 停球与传球", "https://www.bilibili.com/video/BV1Cx411q7t5"),
   ("default", "Bilibili 热门教程", "https://www.bilibili.com/v/technology/computer/")]

/-- The `for key, video in HARDCODED_VIDEOS.items(): if key in topic.title.lower()`
scan (first match wins, dict iteration order = insertion order). -/
def hardcodedLookup (title : String) : Option (String × String × String) :=
  HARDCODED_VIDEOS.find? fun kv => pySub kv.1 (pyLower title)

/-- One DuckDuckGo result dictionary (`DDGS().videos` item); every key the
source reads is optional. -/
structure DdgItem where
  title : Option String
  description : Option String
  duration : Option String
  views : Option Nat
  publisher : Option String
  content : Option String
  deriving DecidableEq

/-- Embedding of `search_candidates_from_ddg`: `none` models the library call
raising (caught and turned into `[]`). -/
def search_candidates_from_ddg (results : Option (List DdgItem)) : List Candidate :=
  match results with
  | none => []
  | some rs =>
      rs.map fun r =>
        { title := r.title.getD "No Title",
          description := pyTake (r.description.getD "") 150,
          duration := r.duration.getD "N/A",
          play := r.views.getD 0,
          author := r.publisher.getD "Unknown",
          url := r.content.getD "#",
          provider := "DuckDuckGo" }

/-- One video dictionary from the Bilibili search API (`data['data']['result']`
item); every key the source reads is optional. -/
structure BiliVideo where
  title : Option String
  bvid : Option String
  description : Option String
  duration : Option String
  play : Option Nat
  author : Option String
  deriving DecidableEq

/-- Parsed body of the Bilibili API response: `malformed` models
`response.json()` raising or `data['code']` missing (a `KeyError`); otherwise
`code` is `data['code']` and `result` is `data['data']['result']` when both
keys are present. -/
inductive BiliApiBody
  | malformed
  | parsed (code : Int) (result : Option (List BiliVideo))
  deriving DecidableEq

/-- Candidate built from one API video that carries a (truthy) `bvid`. -/
def biliApiCand (v : BiliVideo) (bvid : String) : Candidate :=
  { title := pyRemoveAll (pyRemoveAll (v.title.getD "") "<em class=\"keyword\">") "</em>",
    description := pyTake (v.description.getD "") 150,
    duration := v.duration.getD "",
    play := v.play.getD 0,
    author := v.author.getD "",
    url := "https://www.bilibili.com/video/" ++ bvid,
    provider := "Bilibili" }

/-- The `for v in videos[:limit]` loop of the API stage: keep only videos
whose `bvid` is present and non-empty (Python truthiness). -/
def biliApiCands (videos : List BiliVideo) (limit : Nat) : List Candidate :=
  (videos.take limit).filterMap fun v =>
    match v.bvid with
    | some bvid => if bvid ≠ "" then some (biliApiCand v bvid) else none
    | none => none

/-- Candidate built from one scraped bvid in the HTML fallback stage. -/
def biliHtmlCand (bvid : String) : Candidate :=
  { title := "Bilibili Video " ++ bvid ++ " (Parsed)",
    description := "Parsed from search page",
    duration := "N/A",
    play := 0,
    author := "Bilibili",
    url := "https://www.bilibili.com/video/" ++ bvid,
    provider := "Bilibili (Web)" }

/-- The HTML-stage loop: iterate the regex matches (bvids) in order,
deduplicate through `seen_bvids`, stop once `limit` candidates are built. -/
def biliHtmlLoop (limit : Nat) : List String → List String → List Candidate → List Candidate
  | [], _, acc => acc
  | bvid :: rest, seen, acc =>
      if bvid ∈ seen then biliHtmlLoop limit rest seen acc
      else
        if limit ≤ (acc ++ [biliHtmlCand bvid]).length then acc ++ [biliHtmlCand bvid]
        else biliHtmlLoop limit rest (bvid :: seen) (acc ++ [biliHtmlCand bvid])

/-- The HTML fallback stage of the Bilibili adapter; the body of a status-200
response is the list of `BV…` ids the regex finds in the page text. -/
def biliHtmlStage (html : HttpResp (List String)) (limit : Nat) : List Candidate :=
  match html with
  | .netFail => []
  | .resp status ms => if status = 200 then biliHtmlLoop limit ms [] [] else []

/-- Embedding of `search_bilibili_candidates`: try the API; on any failure
(exception, non-200, bad `code`, missing keys) fall back to the HTML scrape. -/
def search_bilibili_candidates (api : HttpResp BiliApiBody) (html : HttpResp (List String))
    (limit : Nat) : List Candidate :=
  match api with
  | .netFail => biliHtmlStage html limit
  | .resp status body =>
      if status = 200 then
        match body with
        | .malformed => biliHtmlStage html limit
        | .parsed code result =>
            match result with
            | some videos => if code = 0 then biliApiCands videos limit else biliHtmlStage html limit
            | none => biliHtmlStage html limit
      else biliHtmlStage html limit

/-- One Zhihu search item's `object` dictionary; `id` and `question_id`
carry the rendered value of the corresponding key when it is present
(`f"{…}"` renders a present value; an absent `question` id renders `"None"`
through `pyStr`). -/
structure ZhihuObj where
  title : Option String
  description : Option String
  content : Option String
  id : Option String
  question_id : Option String
  voteup_count : Option Nat
  author_name : Option String
  deriving DecidableEq

/-- One item of the Zhihu `data` array: its `type` tag plus its `object`. -/
structure ZhihuItem where
  type : String
  obj : ZhihuObj
  deriving DecidableEq

/-- The per-item `title/desc/url` extraction of `search_zhihu_candidates`:
`zvideo` items keep the raw description (no truncation); generic
`search_result` items strip `<em>` tags and truncate the content to 100. -/
def zhihuFields (item : ZhihuItem) : String × String × String :=
  if item.type = "zvideo" then
    (item.obj.title.getD "",
     item.obj.description.getD "",
     "https://www.zhihu.com/zvideo/" ++ pyStr item.obj.id)
  else if item.type = "search_result" ∧ item.obj.title.isSome then
    (pyRemoveAll (pyRemoveAll (item.obj.title.getD "") "<em>") "</em>",
     pyTake (item.obj.content.getD "") 100,
     match item.obj.id with
     | some i => "https://www.zhihu.com/question/" ++ pyStr item.obj.question_id ++ "/answer/" ++ i
     | none => "")
  else ("", "", "")

/-- Candidate built from one accepted Zhihu item. -/
def zhihuCand (item : ZhihuItem) (t d u : String) : Candidate :=
  { title := t,
    description := d,
    duration := "N/A",
    play := item.obj.voteup_count.getD 0,
    author := item.obj.author_name.getD "",
    url := u,
    provider := "Zhihu" }

/-- Candidate built from one Zhihu item, through its extracted fields. -/
def zhihuItemCand (item : ZhihuItem) : Candidate :=
  zhihuCand item (zhihuFields item).1 (zhihuFields item).2.1 (zhihuFields item).2.2

/-- Acceptance test of the Zhihu loop (`if title and url:`). -/
def zhihuAccept (item : ZhihuItem) : Bool :=
  decide ((zhihuFields item).1 ≠ "") && decide ((zhihuFields item).2.2 ≠ "")

/-- The Zhihu item loop: keep items with truthy title and url, stop once
`limit` candidates are collected. -/
def zhihuLoop (limit : Nat) : List ZhihuItem → List Candidate → List Candidate
  | [], acc => acc
  | item :: rest, acc =>
      if zhihuAccept item then
        if limit ≤ (acc ++ [zhihuItemCand item]).length then acc ++ [zhihuItemCand item]
        else zhihuLoop limit rest (acc ++ [zhihuItemCand item])
      else zhihuLoop limit rest acc

/-- Embedding of `search_zhihu_candidates`: body `none` models
`resp.json()` raising or the `data` key missing (both yield `[]`). -/
def search_zhihu_candidates (resp : HttpResp (Option (List ZhihuItem))) (limit : Nat) :
    List Candidate :=
  match resp with
  | .netFail => []
  | .resp status body =>
      if status = 200 then
        match body with
        | some items => zhihuLoop limit items []
        | none => []
      else []

/-- Candidate built from one Sohu regex match `(url, title)`;
protocol-relative links get an `https:` scheme. -/
def sohuCand (u t : String) : Candidate :=
  { title := t,
    description := "搜狐视频搜索结果",
    duration := "N/A",
    play := 0,
    author := "Sohu",
    url := if pyStarts "//" u then "https:" ++ u else u,
    provider := "Sohu" }

/-- The Sohu match loop (append, then stop once `limit` is reached). -/
def sohuLoop (limit : Nat) : List (String × String) → List Candidate → List Candidate
  | [], acc => acc
  | (u, t) :: rest, acc =>
      if limit ≤ (acc ++ [sohuCand u t]).length then acc ++ [sohuCand u t]
      else sohuLoop limit rest (acc ++ [sohuCand u t])

/-- Embedding of `search_sohu_candidates`: the body of a status-200 response
is the list of `(url, title)` pairs the regex finds in the page text. -/
def search_sohu_candidates (resp : HttpResp (List (String × String))) (limit : Nat) :
    List Candidate :=
  match resp with
  | .netFail => []
  | .resp status ms => if status = 200 then sohuLoop limit ms [] else []

/-- Filter of the 360 adapter: keep links pointing into the known video hosts. -/
def so360Keep (link : String) : Bool :=
  pySub "video.so.com/view" link || pySub "v.qq.com" link || pySub "iqiyi.com" link

/-- Candidate built from one accepted 360 link. -/
def so360Cand (link t : String) : Candidate :=
  { title := t,
    description := "360视频聚合搜索",
    duration := "N/A",
    play := 0,
    author := "360",
    url := if pyStarts "http" link then link else "https:" ++ link,
    provider := "360 Video" }

/-- The 360 link loop; the limit test sits outside the filter branch, exactly
as in the source (`if len(candidates) >= limit: break` at loop level). -/
def so360Loop (limit : Nat) : List (String × String) → List Candidate → List Candidate
  | [], acc => acc
  | (link, t) :: rest, acc =>
      if so360Keep link then
        if limit ≤ (acc ++ [so360Cand link t]).length then acc ++ [so360Cand link t]
        else so360Loop limit rest (acc ++ [so360Cand link t])
      else
        if limit ≤ acc.length then acc else so360Loop limit rest acc

/-- Embedding of `search_360_candidates`: the body of a status-200 response
is the list of `(href, title)` anchor pairs the regex finds in the page. -/
def search_360_candidates (resp : HttpResp (List (String × String))) (limit : Nat) :
    List Candidate :=
  match resp with
  | .netFail => []
  | .resp status ls => if status = 200 then so360Loop limit ls [] else []

/-- The `selected_id` field of the parsed oracle response: absent, present
but not an integer, or an integer. -/
inductive JsonField
  | absent
  | nonInt
  | intVal (i : Int)
  deriving DecidableEq

/-- Outcome of the selection call to the LLM endpoint: a raised exception
(timeout/connection), or a status code plus the parse of the (code-fence
stripped) content — `none` models `json.loads` raising, `some (field, reason)`
a parsed object with its `selected_id` shape and optional `reason` string. -/
inductive OracleResp
  | netFail
  | httpStatus (code : Nat) (parsed : Option (JsonField × Option String))
  deriving DecidableEq

/-- Embedding of `call_llm_to_select`: returns the selected candidate's
title/url with the oracle reason, or `none` ("no selection") on a missing
key, any failure, or an out-of-range index. -/
def call_llm_to_select (apiKey : Bool) (resp : OracleResp) (candidates : List Candidate) :
    Option Recommendation :=
  if apiKey then
    match resp with
    | .netFail => none
    | .httpStatus code parsed =>
        if code = 200 then
          match parsed with
          | none => none
          | some (field, reason) =>
              match field with
              | .absent => none
              | .nonInt => none
              | .intVal i =>
                  if 0 ≤ i then
                    match candidates[i.toNat]? with
                    | some c => some { title := c.title, url := c.url, reason := reason.getD "AI 智能推荐" }
                    | none => none
                  else none
        else none
  else none

/-- Outcome of the blind-suggestion call: a raised exception, or a status
code plus the parse of the content — `some (advice, query)` gives the two
optional fields of the parsed object. -/
inductive BlindResp
  | netFail
  | httpStatus (code : Nat) (parsed : Option (Option String × Option String))
  deriving DecidableEq

/-- Embedding of `call_llm_for_blind_suggestion`: package the suggested
search query into a synthetic recommendation, or `none` on any failure. -/
def call_llm_for_blind_suggestion (apiKey : Bool) (resp : BlindResp) : Option Recommendation :=
  if apiKey then
    match resp with
    | .netFail => none
    | .httpStatus code parsed =>
        if code = 200 then
          match parsed with
          | none => none
          | some (advice, query) =>
              some { title := "建议搜索：" ++ pyStr query,
                     url := "https://search.bilibili.com/all?keyword=" ++ pyStr query,
                     reason := "暂时无法自动获取视频链接。AI 建议：" ++ pyStr advice }
        else none
  else none

/-- Events observable from one pipeline invocation: which source adapters
ran, which oracle calls were made, and whether a cache store was attempted. -/
inductive Call
  | bili
  | zhihu
  | sohu
  | so360
  | ddg
  | oracleSelect
  | oracleBlind
  | cacheStore
  deriving DecidableEq

/-- External world of one invocation: what each source adapter returns for
the derived keywords, the oracle configuration/responses, and whether the
cache write succeeds (`TopicRecommendationCache.objects.create` may raise). -/
structure Env where
  bili : List Candidate
  zhihu : List Candidate
  sohu : List Candidate
  so360 : List Candidate
  ddg : List Candidate
  apiKey : Bool
  selectResp : OracleResp
  blindResp : BlindResp
  storeOk : Bool

/-- Candidates accumulated by the aggregation block of
`get_ai_video_recommendation` (lines 389–418): adapters in the fixed order
Bilibili, Zhihu, Sohu, 360, DuckDuckGo; Zhihu/Sohu/360 are gated by
`len(candidates) < 5`, DuckDuckGo by `len(candidates) < 3`. -/
def aggCands (env : Env) : List Candidate :=
  let c1 := env.bili
  let c2 := if c1.length < 5 then c1 ++ env.zhihu else c1
  let c3 := if c2.length < 5 then c2 ++ env.sohu else c2
  let c4 := if c3.length < 5 then c3 ++ env.so360 else c3
  if c4.length < 3 then c4 ++ env.ddg else c4

/-- Adapters invoked by the aggregation block, in invocation order (the same
accumulation gates as `aggCands`). -/
def aggCalls (env : Env) : List Call :=
  let c1 := env.bili
  let c2 := if c1.length < 5 then c1 ++ env.zhihu else c1
  let c3 := if c2.length < 5 then c2 ++ env.sohu else c2
  let c4 := if c3.length < 5 then c3 ++ env.so360 else c3
  [Call.bili] ++ (if c1.length < 5 then [Call.zhihu] else [])
    ++ (if c2.length < 5 then [Call.sohu] else [])
    ++ (if c3.length < 5 then [Call.so360] else [])
    ++ (if c4.length < 3 then [Call.ddg] else [])

/-- The aggregation block: accumulated candidates plus invoked adapters. -/
def aggregate (env : Env) : List Candidate × List Call := (aggCands env, aggCalls env)

/-- Derived search keywords (the cache key):
`f"{topic.title} {topic.get_current_level_display()} 教程"`, extended by the
first 10 characters of the latest feedback when one is present and truthy. -/
def deriveKeywords (topic : Topic) (last_log : Option LearningLog) : String :=
  let base := topic.title ++ " " ++ topic.current_level.display ++ " 教程"
  match last_log with
  | some log => if log.feedback ≠ "" then base ++ " " ++ pyTake log.feedback 10 else base
  | none => base

/-- The validity window of a cache entry, in days (`timedelta(days=30)`). -/
def validityDays : Nat := 30

/-- Row filter of the cache query: matching keyword and level, created within
the validity window (`created_at__gte = now - 30 days`, i.e.
`now ≤ created_at + 30` over unbounded integers). -/
def freshMatch (now : Nat) (kw lvl : String) (e : CacheEntry) : Bool :=
  e.topic_keyword == kw && e.level == lvl && decide (now ≤ e.created_at + validityDays)

/-- Pick the most recent entry (`order_by('-created_at').first()`); on equal
timestamps the earlier row of the list is kept. -/
def mostRecent : List CacheEntry → Option CacheEntry
  | [] => none
  | e :: es =>
      match mostRecent es with
      | none => some e
      | some m => if m.created_at > e.created_at then some m else some e

/-- The cache lookup of the pipeline (lines 372–376). -/
def cacheLookup (now : Nat) (entries : List CacheEntry) (kw lvl : String) : Option CacheEntry :=
  mostRecent (entries.filter (freshMatch now kw lvl))

/-- Row created by the cache store (line 457): keyword, level, and the
selection's title/url/reason, stamped with the current time. -/
def mkEntry (kw lvl : String) (r : Recommendation) (now : Nat) : CacheEntry :=
  { topic_keyword := kw, level := lvl, video_title := r.title, video_url := r.url,
    reason := r.reason, created_at := now }

/-- Candidate injected by the curated fallback (lines 429–437). -/
def curatedCandidate (kv : String × String × String) : Candidate :=
  { title := kv.2.1,
    description := "系统精选推荐",
    duration := "N/A",
    play := 999999,
    author := "System",
    url := kv.2.2,
    provider := "System Fallback" }

/-- Aggregated candidates after the zero-candidate curated fallback
(lines 423–438): when the aggregator yields nothing, the first matching
curated entry (if any) becomes the single candidate. -/
def candidatesWithFallback (env : Env) (title : String) : List Candidate :=
  let cands0 := (aggregate env).1
  if cands0.isEmpty then
    match hardcodedLookup title with
    | some kv => [curatedCandidate kv]
    | none => []
  else cands0

/-- Fixed templated rationale of the rule-based fallback (line 452). -/
def ruleReason : String := "根据热度为您推荐，该视频在全网搜索中排名靠前。"

/-- The cache-miss part of the pipeline (lines 386–466): aggregation,
fallbacks, oracle selection and rule-based degradation.  Returns the result,
the observable calls, and whether the store step (step 7) is reached. -/
def missResult (env : Env) (title : String) : Option Recommendation × List Call × Bool :=
  match candidatesWithFallback env title with
  | [] =>
      (call_llm_for_blind_suggestion env.apiKey env.blindResp,
       (aggregate env).2 ++ [Call.oracleBlind], false)
  | c :: cs =>
      let selection :=
        match call_llm_to_select env.apiKey env.selectResp (c :: cs) with
        | some r => r
        | none => { title := c.title, url := c.url, reason := ruleReason }
      (some selection, (aggregate env).2 ++ [Call.oracleSelect, Call.cacheStore], true)

/-- Embedding of the pipeline entry point `get_ai_video_recommendation`
(lines 360–472): cache lookup, then the miss path with a store attempt (the
store is skipped silently when `env.storeOk` is false — a caught persistence
error).  Returns the recommendation (or `none`), the new cache state, and
the observable calls. -/
def get_ai_video_recommendation (env : Env) (now : Nat) (entries : List CacheEntry)
    (topic : Topic) (last_log : Option LearningLog) :
    Option Recommendation × List CacheEntry × List Call :=
  match cacheLookup now entries (deriveKeywords topic last_log) topic.current_level.code with
  | some c => (some { title := c.video_title, url := c.video_url, reason := c.reason }, entries, [])
  | none =>
      match missResult env topic.title with
      | (some r, calls, true) =>
          (some r,
           if env.storeOk then
             mkEntry (deriveKeywords topic last_log) topic.current_level.code r now :: entries
           else entries,
           calls)
      | (res, calls, _) => (res, entries, calls)

/-! Helper lemmas about the string model. -/

theorem data_append (s t : String) : (s ++ t).data = s.data ++ t.data := by
  obtain ⟨a⟩ := s
  obtain ⟨b⟩ := t
  rfl

theorem append_ne_empty (s t : String) (hs : s ≠ "") : s ++ t ≠ "" := by
  obtain ⟨a⟩ := s
  obtain ⟨b⟩ := t
  intro h
  have h2 : a ++ b = [] := congrArg String.data h
  rcases List.append_eq_nil.mp h2 with ⟨rfl, rfl⟩
  exact hs rfl

theorem isPrefixOf_extend (p : List Char) :
    ∀ (a b : List Char), p.isPrefixOf a = true → p.isPrefixOf (a ++ b) = true := by
  induction p with
  | nil => intro a b _; simp only [List.isPrefixOf]
  | cons x xs ih =>
      intro a b h
      cases a with
      | nil => simp at h
      | cons y ys =>
          simp only [List.isPrefixOf, Bool.and_eq_true] at h ⊢
          exact ⟨h.1, ih ys b h.2⟩

theorem pyStarts_append (p s t : String) (h : pyStarts p s = true) : pyStarts p (s ++ t) = true := by
  unfold pyStarts at h ⊢
  rw [data_append]
  exact isPrefixOf_extend _ _ _ h

theorem isHttpUrl_append (s t : String) (h : isHttpUrl s = true) : isHttpUrl (s ++ t) = true := by
  unfold isHttpUrl at h ⊢
  rcases Bool.or_eq_true_iff.mp h with h1 | h1
  · exact Bool.or_eq_true_iff.mpr (Or.inl (pyStarts_append _ _ _ h1))
  · exact Bool.or_eq_true_iff.mpr (Or.inr (pyStarts_append _ _ _ h1))

theorem pyTake_length_le (s : String) (n : Nat) : (pyTake s n).length ≤ n := by
  show (s.data.take n).length ≤ n
  rw [List.length_take]
  omega

/-! Helper lemmas about the curated catalog and the oracle client. -/

theorem find?_eq_head_filter {α : Type} (p : α → Bool) (l : List α) :
    l.find? p = (l.filter p).head? := by
  induction l with
  | nil => rfl
  | cons a as ih =>
      cases h : p a with
      | true => rw [List.find?_cons_of_pos _ h, List.filter_cons_of_pos h, List.head?_cons]
      | false => rw [List.find?_cons_of_neg _ (by simp [h]), List.filter_cons_of_neg (by simp [h]), ih]

set_option maxRecDepth 4096 in
theorem hardcoded_values_good :
    ∀ kv ∈ HARDCODED_VIDEOS, kv.2.1 ≠ "" ∧ isHttpUrl kv.2.2 = true := by
  decide

theorem call_llm_to_select_mem {k : Bool} {resp : OracleResp} {cands : List Candidate}
    {r : Recommendation} (h : call_llm_to_select k resp cands = some r) :
    ∃ c ∈ cands, r.title = c.title ∧ r.url = c.url := by
  unfold call_llm_to_select at h
  cases k with
  | false => simp at h
  | true =>
      simp only [if_true] at h
      cases resp with
      | netFail => simp at h
      | httpStatus code parsed =>
          by_cases hc : code = 200

          · simp only [hc, if_true] at h
            cases parsed with
            | none => simp at h
            | some fr =>
                obtain ⟨field, reason⟩ := fr
                cases field with
                | absent => simp at h
                | nonInt => simp at h
                | intVal i =>
                    simp only at h
                    by_cases hi : 0 ≤ i
                    · simp only [hi, if_true] at h
                      cases hg : cands[i.toNat]? with
                      | none => rw [hg] at h; simp at h
                      | some c =>
                          rw [hg] at h
                          simp only [Option.some.injEq] at h
                          obtain ⟨hlt, rfl⟩ := List.getElem?_eq_some.mp hg
                          refine ⟨_, List.getElem_mem hlt, ?_, ?_⟩ <;> rw [← h]
                    · simp [hi] at h
          · simp [hc] at h

theorem call_llm_for_blind_fields {k : Bool} {resp : BlindResp} {r : Recommendation}
    (h : call_llm_for_blind_suggestion k resp = some r) :
    r.title ≠ "" ∧ isHttpUrl r.url = true := by
  unfold call_llm_for_blind_suggestion at h
  cases k with
  | false => simp at h
  | true =>
      simp only [if_true] at h
      cases resp with
      | netFail => simp at h
      | httpStatus code parsed =>
          by_cases hc : code = 200
          · simp only [hc, if_true] at h
            cases parsed with
            | none => simp at h
            | some aq =>
                obtain ⟨advice, query⟩ := aq
                simp only [Option.some.injEq] at h
                subst h
                constructor
                · exact append_ne_empty _ _ (by decide)
                · exact isHttpUrl_append _ _ (by decide)
          · simp [hc] at h

/-! Helper lemmas about the cache lookup. -/

theorem mostRecent_ne_none {l : List CacheEntry} (h : l ≠ []) : mostRecent l ≠ none := by
  cases l with
  | nil => exact absurd rfl h
  | cons e es =>
      unfold mostRecent
      cases mostRecent es with
      | none => simp
      | some m => by_cases hgt : m.created_at > e.created_at <;> simp [hgt]

theorem mostRecent_mem {l : List CacheEntry} {m : CacheEntry} (h : mostRecent l = some m) :
    m ∈ l := by
  induction l generalizing m with
  | nil => simp [mostRecent] at h
  | cons e es ih =>
      unfold mostRecent at h
      cases hm : mostRecent es with
      | none => rw [hm] at h; simp only [Option.some.injEq] at h; simp [← h]
      | some m2 =>
          rw [hm] at h
          by_cases hgt : m2.created_at > e.created_at
          · simp only [hgt, if_true, Option.some.injEq] at h
            exact List.mem_cons_of_mem _ (h ▸ ih hm)
          · simp only [hgt, if_false, Option.some.injEq] at h
            simp [← h]

theorem mostRecent_max {l : List CacheEntry} {m : CacheEntry} (h : mostRecent l = some m) :
    ∀ x ∈ l, x.created_at ≤ m.created_at := by
  induction l generalizing m with
  | nil => simp
  | cons e es ih =>
      intro x hx
      unfold mostRecent at h
      cases hm : mostRecent es with
      | none =>
          rw [hm] at h
          simp only [Option.some.injEq] at h
          cases List.mem_cons.mp hx with
          | inl hxe => subst h; rw [hxe]
          | inr hxs => exact absurd hm (mostRecent_ne_none (List.ne_nil_of_mem hxs))
      | some m2 =>
          rw [hm] at h
          by_cases hgt : m2.created_at > e.created_at
          · simp only [hgt, if_true, Option.some.injEq] at h
            subst h
            cases List.mem_cons.mp hx with
            | inl hxe => rw [hxe]; omega
            | inr hxs => exact ih hm x hxs
          · simp only [hgt, if_false, Option.some.injEq] at h
            subst h
            cases List.mem_cons.mp hx with
            | inl hxe => rw [hxe]
            | inr hxs => have := ih hm x hxs; omega

theorem mostRecent_cons_of_max {e : CacheEntry} {l : List CacheEntry}
    (h : ∀ x ∈ l, x.created_at ≤ e.created_at) : mostRecent (e :: l) = some e := by
  unfold mostRecent
  cases hm : mostRecent l with
  | none => rfl
  | some m =>
      have hle : m.created_at ≤ e.created_at := h m (mostRecent_mem hm)
      have : ¬ m.created_at > e.created_at := by omega
      simp [this]

theorem freshMatch_iff {now : Nat} {kw lvl : String} {e : CacheEntry} :
    freshMatch now kw lvl e = true ↔
      e.topic_keyword = kw ∧ e.level = lvl ∧ now ≤ e.created_at + validityDays := by
  simp [freshMatch, Bool.and_eq_true, and_assoc]

theorem cacheLookup_some {now : Nat} {entries : List CacheEntry} {kw lvl : String}
    {e : CacheEntry} (h : cacheLookup now entries kw lvl = some e) :
    e ∈ entries ∧ e.topic_keyword = kw ∧ e.level = lvl ∧ now ≤ e.created_at + validityDays ∧
      ∀ x ∈ entries, x.topic_keyword = kw → x.level = lvl →
        now ≤ x.created_at + validityDays → x.created_at ≤ e.created_at := by
  unfold cacheLookup at h
  have hmem := mostRecent_mem h
  have hmax := mostRecent_max h
  rw [List.mem_filter] at hmem
  obtain ⟨hin, hfm⟩ := hmem
  obtain ⟨h1, h2, h3⟩ := freshMatch_iff.mp hfm
  refine ⟨hin, h1, h2, h3, ?_⟩
  intro x hx hx1 hx2 hx3
  exact hmax x (List.mem_filter.mpr ⟨hx, freshMatch_iff.mpr ⟨hx1, hx2, hx3⟩⟩)

theorem cacheLookup_none {now : Nat} {entries : List CacheEntry} {kw lvl : String}
    (h : ∀ e ∈ entries, e.topic_keyword = kw → e.level = lvl →
      e.created_at + validityDays < now) :
    cacheLookup now entries kw lvl = none := by
  unfold cacheLookup
  have : entries.filter (freshMatch now kw lvl) = [] := by
    rw [List.filter_eq_nil_iff]
    intro e he
    intro hfm
    obtain ⟨h1, h2, h3⟩ := freshMatch_iff.mp hfm
    have := h e he h1 h2
    omega
  rw [this]
  rfl

/-! Helper lemmas about the miss path and the pipeline. -/

theorem missResult_blind {env : Env} {title : String}
    (h : candidatesWithFallback env title = []) :
    missResult env title =
      (call_llm_for_blind_suggestion env.apiKey env.blindResp,
       (aggregate env).2 ++ [Call.oracleBlind], false) := by
  unfold missResult
  rw [h]

theorem missResult_sel {env : Env} {title : String} {c : Candidate} {cs : List Candidate}
    (h : candidatesWithFallback env title = c :: cs) :
    missResult env title =
      (some (match call_llm_to_select env.apiKey env.selectResp (c :: cs) with
             | some r => r
             | none => { title := c.title, url := c.url, reason := ruleReason }),
       (aggregate env).2 ++ [Call.oracleSelect, Call.cacheStore], true) := by
  unfold missResult
  rw [h]

theorem pipeline_hit {env : Env} {now : Nat} {entries : List CacheEntry} {topic : Topic}
    {log : Option LearningLog} {c : CacheEntry}
    (h : cacheLookup now entries (deriveKeywords topic log) topic.current_level.code = some c) :
    get_ai_video_recommendation env now entries topic log =
      (some { title := c.video_title, url := c.video_url, reason := c.reason }, entries, []) := by
  unfold get_ai_video_recommendation
  rw [h]

theorem pipeline_miss_blind {env : Env} {now : Nat} {entries : List CacheEntry} {topic : Topic}
    {log : Option LearningLog}
    (h : cacheLookup now entries (deriveKeywords topic log) topic.current_level.code = none)
    (hcf : candidatesWithFallback env topic.title = []) :
    get_ai_video_recommendation env now entries topic log =
      (call_llm_for_blind_suggestion env.apiKey env.blindResp, entries,
       (aggregate env).2 ++ [Call.oracleBlind]) := by
  unfold get_ai_video_recommendation
  rw [h, missResult_blind hcf]
  cases hb : call_llm_for_blind_suggestion env.apiKey env.blindResp <;> simp

theorem pipeline_miss_sel {env : Env} {now : Nat} {entries : List CacheEntry} {topic : Topic}
    {log : Option LearningLog} {c : Candidate} {cs : List Candidate}
    (h : cacheLookup now entries (deriveKeywords topic log) topic.current_level.code = none)
    (hcf : candidatesWithFallback env topic.title = c :: cs) :
    get_ai_video_recommendation env now entries topic log =
      (some (match call_llm_to_select env.apiKey env.selectResp (c :: cs) with
             | some r => r
             | none => { title := c.title, url := c.url, reason := ruleReason }),
       if env.storeOk then
         mkEntry (deriveKeywords topic log) topic.current_level.code
           (match call_llm_to_select env.apiKey env.selectResp (c :: cs) with
            | some r => r
            | none => { title := c.title, url := c.url, reason := ruleReason }) now :: entries
       else entries,
       (aggregate env).2 ++ [Call.oracleSelect, Call.cacheStore]) := by
  unfold get_ai_video_recommendation
  rw [h, missResult_sel hcf]

theorem bili_mem_aggregate (env : Env) : Call.bili ∈ (aggregate env).2 := by
  simp only [aggregate, aggCalls]
  split_ifs <;> decide

theorem oracleBlind_not_mem_aggregate (env : Env) : Call.oracleBlind ∉ (aggregate env).2 := by
  simp only [aggregate, aggCalls]
  split_ifs <;> decide

theorem cacheStore_not_mem_aggregate (env : Env) : Call.cacheStore ∉ (aggregate env).2 := by
  simp only [aggregate, aggCalls]
  split_ifs <;> decide

theorem pipeline_store_shape {env : Env} {now : Nat} {entries : List CacheEntry} {topic : Topic}
    {log : Option LearningLog} {r : Recommendation} {e : CacheEntry} {calls : List Call}
    (h : get_ai_video_recommendation env now entries topic log = (some r, e :: entries, calls)) :
    e = mkEntry (deriveKeywords topic log) topic.current_level.code r now := by
  have hlen : entries ≠ e :: entries := by
    intro hq
    have := congrArg List.length hq
    simp at this
  cases hcl : cacheLookup now entries (deriveKeywords topic log) topic.current_level.code with
  | some c =>
      rw [pipeline_hit hcl] at h
      simp only [Prod.mk.injEq] at h
      exact absurd h.2.1 hlen
  | none =>
      cases hcf : candidatesWithFallback env topic.title with
      | nil =>
          rw [pipeline_miss_blind hcl hcf] at h
          simp only [Prod.mk.injEq] at h
          exact absurd h.2.1 hlen
      | cons c cs =>
          rw [pipeline_miss_sel hcl hcf] at h
          by_cases hs : env.storeOk
          · simp only [hs, if_true, Prod.mk.injEq, Option.some.injEq] at h
            obtain ⟨h1, h2, -⟩ := h
            rw [← h1]
            exact (List.cons.injEq _ _ _ _ ▸ h2).1.symm ▸ rfl
          · simp only [hs, if_false, Prod.mk.injEq] at h
            exact absurd h.2.1 hlen

/-! Concrete fixtures for witnesses and counterexamples. -/

/-- Baseline environment: every source empty, no oracle credential, every
oracle call failing, cache store succeeding. -/
def emptyEnv : Env :=
  { bili := [], zhihu := [], sohu := [], so360 := [], ddg := [],
    apiKey := false, selectResp := .netFail, blindResp := .netFail, storeOk := true }

/-- A concrete well-formed Bilibili candidate. -/
def biliCandFx : Candidate :=
  { title := "Python 入门全集", description := "零基础教程", duration := "10:00", play := 1000,
    author := "up主", url := "https://www.bilibili.com/video/BV1xx411c7mD",
    provider := "Bilibili" }

/-- A concrete topic titled `python` at beginner level. -/
def topicPyFx : Topic := { title := "python", current_level := .beginner, description := "" }

/-- A matching cache entry created 31 days before the lookup at time 40. -/
def entry31Fx : CacheEntry :=
  { topic_keyword := "python 入门 教程", level := "beginner", video_title := "旧视频",
    video_url := "https://www.bilibili.com/video/BV1old", reason := "老的理由", created_at := 9 }

/-! Claim theorems. -/

/-- C7: a cache hit is always a matching entry inside the validity window and
of maximal creation time among the fresh matches (so expired entries are
never returned, and lookup picks the most recent); when every matching entry
is older than the validity window the lookup misses and the full pipeline
re-executes (the aggregator invokes Bilibili). -/
theorem cache_expiry_and_recency :
    (∀ (now : Nat) (entries : List CacheEntry) (kw lvl : String) (e : CacheEntry),
        cacheLookup now entries kw lvl = some e →
        e ∈ entries ∧ e.topic_keyword = kw ∧ e.level = lvl ∧
          now ≤ e.created_at + validityDays ∧
          ∀ x ∈ entries, x.topic_keyword = kw → x.level = lvl →
            now ≤ x.created_at + validityDays → x.created_at ≤ e.created_at) ∧
    (∀ (env : Env) (now : Nat) (entries : List CacheEntry) (topic : Topic)
        (log : Option LearningLog),
        (∀ e ∈ entries, e.topic_keyword = deriveKeywords topic log →
          e.level = topic.current_level.code → e.created_at + validityDays < now) →
        cacheLookup now entries (deriveKeywords topic log) topic.current_level.code = none ∧
          Call.bili ∈ (get_ai_video_recommendation env now entries topic log).2.2) := by
  constructor
  · intro now entries kw lvl e h
    exact cacheLookup_some h
  · intro env now entries topic log h
    have hn := cacheLookup_none h
    refine ⟨hn, ?_⟩
    cases hcf : candidatesWithFallback env topic.title with
    | nil =>
        rw [pipeline_miss_blind hn hcf]
        exact List.mem_append_left _ (bili_mem_aggregate env)
    | cons c cs =>
        rw [pipeline_miss_sel hn hcf]
        exact List.mem_append_left _ (bili_mem_aggregate env)

/-- Witness for C7: an entry 31 days old (created at day 9, looked up at
day 40) for the matching keyword/level is a miss and the adapters run. -/
theorem cache_expiry_and_recency_witness :
    cacheLookup 40 [entry31Fx] (deriveKeywords topicPyFx none) topicPyFx.current_level.code =
      none ∧
    Call.bili ∈ (get_ai_video_recommendation emptyEnv 40 [entry31Fx] topicPyFx none).2.2 :=
  cache_expiry_and_recency.2 emptyEnv 40 [entry31Fx] topicPyFx none (by decide)

/-- C3: if an invocation at time `t1` stored a cache entry (its output state
gained one row), then any second invocation with the identical derived
keywords and level, at a time `t2` inside the stored entry's validity window
and with no intervening store, performs no adapter and no oracle call (its
observable call list is empty) and returns exactly the stored entry, which
carries the first invocation's result. -/
theorem cache_idempotence {env1 env2 : Env} {topic topic2 : Topic}
    {log log2 : Option LearningLog} {entries : List CacheEntry} {t1 t2 : Nat}
    {r : Recommendation} {e : CacheEntry} {calls1 : List Call}
    (h1 : get_ai_video_recommendation env1 t1 entries topic log = (some r, e :: entries, calls1))
    (hkw : deriveKeywords topic2 log2 = deriveKeywords topic log)
    (hlvl : topic2.current_level = topic.current_level)
    (hold : ∀ x ∈ entries, x.created_at ≤ t1)
    (hw : t2 ≤ t1 + validityDays) :
    get_ai_video_recommendation env2 t2 (e :: entries) topic2 log2 =
      (some r, e :: entries, []) ∧
    e.video_title = r.title ∧ e.video_url = r.url ∧ e.reason = r.reason := by
  have he := pipeline_store_shape h1
  subst he
  have hlk : cacheLookup t2
      (mkEntry (deriveKeywords topic log) topic.current_level.code r t1 :: entries)
      (deriveKeywords topic2 log2) topic2.current_level.code =
      some (mkEntry (deriveKeywords topic log) topic.current_level.code r t1) := by
    rw [hkw, hlvl]
    unfold cacheLookup
    have hfm : freshMatch t2 (deriveKeywords topic log) topic.current_level.code
        (mkEntry (deriveKeywords topic log) topic.current_level.code r t1) = true :=
      freshMatch_iff.mpr ⟨rfl, rfl, hw⟩
    rw [List.filter_cons_of_pos hfm]
    apply mostRecent_cons_of_max
    intro x hx
    rw [List.mem_filter] at hx
    exact hold x hx.1
  rw [pipeline_hit hlk]
  exact ⟨rfl, rfl, rfl, rfl⟩

/-- First-run environment for the C3 witness: one Bilibili candidate, no
oracle credential. -/
def env1Fx : Env := { emptyEnv with bili := [biliCandFx] }

/-- Result of the C3 witness first run (rule-based fallback on the one
Bilibili candidate). -/
def recFx : Recommendation :=
  { title := biliCandFx.title, url := biliCandFx.url, reason := ruleReason }

/-- Cache entry stored by the C3 witness first run at day 0. -/
def entryFx : CacheEntry := mkEntry "python 入门 教程" "beginner" recFx 0

/-- Observable calls of the C3 witness first run. -/
def callsFx : List Call :=
  [Call.bili, Call.zhihu, Call.sohu, Call.so360, Call.ddg, Call.oracleSelect, Call.cacheStore]

/-- Witness for C3: a first run at day 0 (one Bilibili candidate, oracle
unavailable) stores an entry; the rerun at day 10 answers from cache with an
empty call list and the same result. -/
theorem cache_idempotence_witness :
    get_ai_video_recommendation emptyEnv 10 (entryFx :: []) topicPyFx none =
      (some recFx, entryFx :: [], []) :=
  (@cache_idempotence env1Fx emptyEnv topicPyFx topicPyFx none none [] 0 10 recFx entryFx
      callsFx (by decide) rfl rfl (by decide) (by decide)).1

/-- C5: the aggregator invokes adapters in the fixed priority order Bilibili,
Zhihu, Sohu, 360, DuckDuckGo (its call list is always a sublist of that
order, starting with Bilibili, which always runs), and once the accumulated
candidate count reaches the threshold of 5 every remaining lower-priority
adapter is skipped; in particular left-over counts of 5 after Bilibili stop
the whole chain. -/
theorem aggregator_priority_and_short_circuit :
    (∀ env : Env, List.Sublist (aggregate env).2
        [Call.bili, Call.zhihu, Call.sohu, Call.so360, Call.ddg]) ∧
    (∀ env : Env, Call.bili ∈ (aggregate env).2) ∧
    (∀ env : Env, 5 ≤ env.bili.length →
        (aggregate env).2 = [Call.bili] ∧ (aggregate env).1 = env.bili) ∧
    (∀ env : Env, 5 ≤ env.bili.length + env.zhihu.length →
        Call.sohu ∉ (aggregate env).2 ∧ Call.so360 ∉ (aggregate env).2 ∧
          Call.ddg ∉ (aggregate env).2) ∧
    (∀ env : Env, 5 ≤ env.bili.length + env.zhihu.length + env.sohu.length →
        Call.so360 ∉ (aggregate env).2 ∧ Call.ddg ∉ (aggregate env).2) ∧
    (∀ env : Env, 5 ≤ env.bili.length + env.zhihu.length + env.sohu.length +
          env.so360.length →
        Call.ddg ∉ (aggregate env).2) := by
  refine ⟨?_, bili_mem_aggregate, ?_, ?_, ?_, ?_⟩ <;>
    intro env <;>
    first
      | (simp only [aggregate, aggCalls]
         split_ifs <;> decide)
      | (intro h
         simp only [aggregate, aggCalls, aggCands]
         split_ifs <;>
           first
             | decide
             | (exfalso
                simp only [List.length_append] at *
                omega)
             | (refine ⟨by decide, rfl⟩))

/-- Witness for C5: with every adapter mocked to return 5 candidates, only
Bilibili is invoked and its 5 candidates are the whole aggregation. -/
theorem aggregator_short_circuit_witness :
    (aggregate { emptyEnv with
        bili := List.replicate 5 biliCandFx, zhihu := List.replicate 5 biliCandFx,
        sohu := List.replicate 5 biliCandFx, so360 := List.replicate 5 biliCandFx,
        ddg := List.replicate 5 biliCandFx }).2 = [Call.bili] ∧
    (aggregate { emptyEnv with
        bili := List.replicate 5 biliCandFx, zhihu := List.replicate 5 biliCandFx,
        sohu := List.replicate 5 biliCandFx, so360 := List.replicate 5 biliCandFx,
        ddg := List.replicate 5 biliCandFx }).1 = List.replicate 5 biliCandFx :=
  aggregator_priority_and_short_circuit.2.2.1 _ (by decide)

/-- C4: the oracle client returns "no selection" (`none`) — and, being a
total function over explicit failure constructors, never raises — on a
network failure/timeout, a non-200 status, an unparseable body, a missing or
non-integer `selected_id`, or an integer index outside `[0, len(candidates))`;
and whenever it returns `none` on a non-empty aggregation the pipeline
selects the first aggregated candidate with the fixed templated rationale. -/
theorem oracle_validation_and_fallback :
    (∀ (k : Bool) (cands : List Candidate), call_llm_to_select k .netFail cands = none) ∧
    (∀ (k : Bool) (code : Nat) (parsed : Option (JsonField × Option String))
        (cands : List Candidate), code ≠ 200 →
        call_llm_to_select k (.httpStatus code parsed) cands = none) ∧
    (∀ (k : Bool) (code : Nat) (cands : List Candidate),
        call_llm_to_select k (.httpStatus code none) cands = none) ∧
    (∀ (k : Bool) (code : Nat) (rs : Option String) (cands : List Candidate),
        call_llm_to_select k (.httpStatus code (some (.absent, rs))) cands = none) ∧
    (∀ (k : Bool) (code : Nat) (rs : Option String) (cands : List Candidate),
        call_llm_to_select k (.httpStatus code (some (.nonInt, rs))) cands = none) ∧
    (∀ (k : Bool) (code : Nat) (rs : Option String) (cands : List Candidate) (i : Int),
        i < 0 ∨ (cands.length : Int) ≤ i →
        call_llm_to_select k (.httpStatus code (some (.intVal i, rs))) cands = none) ∧
    (∀ (env : Env) (now : Nat) (entries : List CacheEntry) (topic : Topic)
        (log : Option LearningLog) (c : Candidate) (cs : List Candidate),
        cacheLookup now entries (deriveKeywords topic log) topic.current_level.code = none →
        (aggregate env).1 = c :: cs →
        call_llm_to_select env.apiKey env.selectResp (c :: cs) = none →
        (get_ai_video_recommendation env now entries topic log).1 =
          some { title := c.title, url := c.url, reason := ruleReason }) := by
  refine ⟨?_, ?_, ?_, ?_, ?_, ?_, ?_⟩
  · intro k cands
    cases k <;> simp [call_llm_to_select]
  · intro k code parsed cands h
    cases k <;> simp [call_llm_to_select, h]
  · intro k code cands
    cases k <;> by_cases hc : code = 200 <;> simp [call_llm_to_select, hc]
  · intro k code rs cands
    cases k <;> by_cases hc : code = 200 <;> simp [call_llm_to_select, hc]
  · intro k code rs cands
    cases k <;> by_cases hc : code = 200 <;> simp [call_llm_to_select, hc]
  · intro k code rs cands i h
    cases k
    · simp [call_llm_to_select]
    · by_cases hc : code = 200
      · rcases h with h | h
        · have hi : ¬ 0 ≤ i := by omega
          simp [call_llm_to_select, hc, hi]
        · have hi : 0 ≤ i := by omega
          have hg : cands[i.toNat]? = none := List.getElem?_eq_none (by omega)
          simp [call_llm_to_select, hc, hi, hg]
      · simp [call_llm_to_select, hc]
  · intro env now entries topic log c cs hm hagg hsel
    have hcf : candidatesWithFallback env topic.title = c :: cs := by
      simp only [candidatesWithFallback]
      rw [hagg]
      simp
    rw [pipeline_miss_sel hm hcf]
    simp [hsel]

/-- Environment of the C4 witness: one Bilibili candidate and an oracle that
answers with the out-of-range index −1. -/
def envC4Fx : Env :=
  { emptyEnv with
    bili := [biliCandFx], apiKey := true,
    selectResp := .httpStatus 200 (some (.intVal (-1), some "理由")) }

/-- Witness for C4: against a 3-candidate list, responses selecting index −1
and index 99 are both "no selection", and a run whose oracle answers −1
falls back to the first aggregated candidate with the templated rationale. -/
theorem oracle_validation_and_fallback_witness :
    call_llm_to_select true (.httpStatus 200 (some (.intVal (-1), some "理由")))
      [biliCandFx, biliCandFx, biliCandFx] = none ∧
    call_llm_to_select true (.httpStatus 200 (some (.intVal 99, some "理由")))
      [biliCandFx, biliCandFx, biliCandFx] = none ∧
    (get_ai_video_recommendation envC4Fx 0 [] topicPyFx none).1 =
      some { title := biliCandFx.title, url := biliCandFx.url, reason := ruleReason } :=
  ⟨oracle_validation_and_fallback.2.2.2.2.2.1 true 200 (some "理由")
      [biliCandFx, biliCandFx, biliCandFx] (-1) (Or.inl (by decide)),
   oracle_validation_and_fallback.2.2.2.2.2.1 true 200 (some "理由")
      [biliCandFx, biliCandFx, biliCandFx] 99 (Or.inr (by decide)),
   oracle_validation_and_fallback.2.2.2.2.2.2 envC4Fx 0 [] topicPyFx none biliCandFx []
      (by decide) (by decide) (by decide)⟩

/-- C6: on a cache miss with zero aggregated candidates and a curated match
for the topic title, the recommendation uses the curated (title, url) pair of
the first matching key in the catalog's fixed iteration order (the lookup is
exactly head-of-filter), and the blind-oracle path is never invoked. -/
theorem curated_fallback_used {env : Env} {now : Nat} {entries : List CacheEntry}
    {topic : Topic} {log : Option LearningLog} {kv : String × String × String}
    (hm : cacheLookup now entries (deriveKeywords topic log) topic.current_level.code = none)
    (h0 : (aggregate env).1 = [])
    (hkv : hardcodedLookup topic.title = some kv) :
    hardcodedLookup topic.title =
      (HARDCODED_VIDEOS.filter fun p => pySub p.1 (pyLower topic.title)).head? ∧
    (∃ r, (get_ai_video_recommendation env now entries topic log).1 = some r ∧
      r.title = kv.2.1 ∧ r.url = kv.2.2) ∧
    Call.oracleBlind ∉ (get_ai_video_recommendation env now entries topic log).2.2 := by
  have hcf : candidatesWithFallback env topic.title = [curatedCandidate kv] := by
    simp only [candidatesWithFallback]
    rw [h0]
    simp [hkv]
  refine ⟨find?_eq_head_filter _ _, ?_, ?_⟩
  · rw [pipeline_miss_sel hm hcf]
    cases hsel : call_llm_to_select env.apiKey env.selectResp [curatedCandidate kv] with
    | some r2 =>
        obtain ⟨c2, hc2, ht, hu⟩ := call_llm_to_select_mem hsel
        rw [List.mem_singleton] at hc2
        subst hc2
        exact ⟨r2, by simp [hsel], ht, hu⟩
    | none =>
        exact ⟨{ title := (curatedCandidate kv).title, url := (curatedCandidate kv).url,
                 reason := ruleReason }, by simp [hsel], rfl, rfl⟩
  · rw [pipeline_miss_sel hm hcf]
    intro hmem
    rcases List.mem_append.mp hmem with h1 | h1
    · exact oracleBlind_not_mem_aggregate env h1
    · simp at h1

/-- Topic of the C6 witness, whose lowercased title contains the curated key
`python`. -/
def topicC6 : Topic := { title := "Python 基础", current_level := .beginner, description := "" }

/-- Witness for C6: with zero candidates and topic `Python 基础`, the curated
`python` entry's title/url are returned and no blind-oracle call happens. -/
theorem curated_fallback_used_witness :
    hardcodedLookup topicC6.title =
      (HARDCODED_VIDEOS.filter fun p => pySub p.1 (pyLower topicC6.title)).head? ∧
    (∃ r, (get_ai_video_recommendation emptyEnv 0 [] topicC6 none).1 = some r ∧
      r.title = "Python 教程 - 廖雪峰" ∧ r.url = "https://www.bilibili.com/video/BV1wD4y1o7AS") ∧
    Call.oracleBlind ∉ (get_ai_video_recommendation emptyEnv 0 [] topicC6 none).2.2 :=
  @curated_fallback_used emptyEnv 0 [] topicC6 none
    ("python", "Python 教程 - 廖雪峰", "https://www.bilibili.com/video/BV1wD4y1o7AS")
    (by decide) (by decide) (by decide)

/-- C10: the curated `default` entry is selected only when the literal
substring `default` occurs in the lowercased topic title (any curated hit
requires its key as a substring); and when no catalog key — `default`
included — occurs in the lowercased title, the curated stage yields nothing
and the pipeline proceeds directly to the blind-oracle suggestion. -/
theorem default_entry_needs_substring :
    (∀ (t : String) (kv : String × String × String),
        hardcodedLookup t = some kv → pySub kv.1 (pyLower t) = true) ∧
    (∀ (env : Env) (now : Nat) (entries : List CacheEntry) (topic : Topic)
        (log : Option LearningLog),
        cacheLookup now entries (deriveKeywords topic log) topic.current_level.code = none →
        (aggregate env).1 = [] →
        (∀ kv ∈ HARDCODED_VIDEOS, pySub kv.1 (pyLower topic.title) = false) →
        (get_ai_video_recommendation env now entries topic log).1 =
          call_llm_for_blind_suggestion env.apiKey env.blindResp ∧
        Call.oracleBlind ∈ (get_ai_video_recommendation env now entries topic log).2.2) := by
  constructor
  · intro t kv h
    have h2 : HARDCODED_VIDEOS.find? (fun p => pySub p.1 (pyLower t)) = some kv := h
    have h3 := List.find?_some h2
    exact h3
  · intro env now entries topic log hm h0 hnone
    have hlk : hardcodedLookup topic.title = none := by
      unfold hardcodedLookup
      rw [List.find?_eq_none]
      intro kv hkv
      simp [hnone kv hkv]
    have hcf : candidatesWithFallback env topic.title = [] := by
      simp only [candidatesWithFallback]
      rw [h0]
      simp [hlk]
    rw [pipeline_miss_blind hm hcf]
    exact ⟨rfl, List.mem_append_right _ (by simp)⟩

/-- Topic of the C10 witness, whose lowercased title contains no curated key
(in particular not the literal `default`). -/
def topicC10 : Topic := { title := "微积分", current_level := .advanced, description := "" }

/-- Witness for C10: topic `微积分` matches no curated key, so the curated
stage yields nothing and the blind-oracle path is taken. -/
theorem default_entry_needs_substring_witness :
    (get_ai_video_recommendation emptyEnv 0 [] topicC10 none).1 =
      call_llm_for_blind_suggestion emptyEnv.apiKey emptyEnv.blindResp ∧
    Call.oracleBlind ∈ (get_ai_video_recommendation emptyEnv 0 [] topicC10 none).2.2 :=
  default_entry_needs_substring.2 emptyEnv 0 [] topicC10 none
    (by decide) (by decide) (by decide)

/-- Topic with no curated-catalog match, for the C2 counterexample. -/
def topicCalcFx : Topic := { title := "线性代数", current_level := .beginner, description := "" }

/-- Environment of the C2 counterexample: no candidates anywhere, an oracle
credential present, a successful blind suggestion, and a store that would
succeed. -/
def envC2Fx : Env :=
  { emptyEnv with
    apiKey := true,
    blindResp := .httpStatus 200 (some (some "多做题", some "线性代数 教程")) }

/-- Counterexample to C2: this invocation produces a non-absent
recommendation (the blind-oracle suggestion) and the store would succeed
(`storeOk = true`), yet no cache store is attempted: the cache state is
unchanged and no store event is observed. -/
theorem blind_result_not_cached_cex :
    (get_ai_video_recommendation envC2Fx 0 [] topicCalcFx none).1 =
      some { title := "建议搜索：线性代数 教程",
             url := "https://search.bilibili.com/all?keyword=线性代数 教程",
             reason := "暂时无法自动获取视频链接。AI 建议：多做题" } ∧
    envC2Fx.storeOk = true ∧
    (get_ai_video_recommendation envC2Fx 0 [] topicCalcFx none).2.1 = [] ∧
    Call.cacheStore ∉ (get_ai_video_recommendation envC2Fx 0 [] topicCalcFx none).2.2 := by
  decide

/-- C2 (amended): on a cache miss, every non-absent result produced from a
non-empty candidate set — Oracle selection, the curated candidate, or the
rule-based first-candidate fallback — triggers a cache-store attempt (an
append on success; on a storage failure the state is unchanged but the
result is still returned); the blind-oracle suggestion, however, is returned
without any store attempt. -/
theorem store_attempted_after_selection {env : Env} {now : Nat} {entries : List CacheEntry}
    {topic : Topic} {log : Option LearningLog}
    (hm : cacheLookup now entries (deriveKeywords topic log) topic.current_level.code = none) :
    (∀ c cs, candidatesWithFallback env topic.title = c :: cs →
       ∃ r, (get_ai_video_recommendation env now entries topic log).1 = some r ∧
         Call.cacheStore ∈ (get_ai_video_recommendation env now entries topic log).2.2 ∧
         (env.storeOk = true →
           (get_ai_video_recommendation env now entries topic log).2.1 =
             mkEntry (deriveKeywords topic log) topic.current_level.code r now :: entries) ∧
         (env.storeOk = false →
           (get_ai_video_recommendation env now entries topic log).2.1 = entries)) ∧
    (candidatesWithFallback env topic.title = [] →
       Call.cacheStore ∉ (get_ai_video_recommendation env now entries topic log).2.2 ∧
       (get_ai_video_recommendation env now entries topic log).2.1 = entries) := by
  constructor
  · intro c cs hcf
    rw [pipeline_miss_sel hm hcf]
    refine ⟨_, rfl, List.mem_append_right _ (by simp), ?_, ?_⟩
    · intro hs
      simp [hs]
    · intro hs
      simp [hs]
  · intro hcf
    rw [pipeline_miss_blind hm hcf]
    refine ⟨?_, rfl⟩
    intro hmem
    rcases List.mem_append.mp hmem with h1 | h1
    · exact cacheStore_not_mem_aggregate env h1
    · simp at h1

/-- Witness for the amended C2: a rule-based selection from one Bilibili
candidate is stored (the state gains exactly the corresponding row). -/
theorem store_attempted_after_selection_witness :
    ∃ r, (get_ai_video_recommendation env1Fx 0 [] topicPyFx none).1 = some r ∧
      Call.cacheStore ∈ (get_ai_video_recommendation env1Fx 0 [] topicPyFx none).2.2 ∧
      (env1Fx.storeOk = true →
        (get_ai_video_recommendation env1Fx 0 [] topicPyFx none).2.1 =
          mkEntry (deriveKeywords topicPyFx none) topicPyFx.current_level.code r 0 :: []) ∧
      (env1Fx.storeOk = false →
        (get_ai_video_recommendation env1Fx 0 [] topicPyFx none).2.1 = []) :=
  (@store_attempted_after_selection env1Fx 0 [] topicPyFx none (by decide)).1
    biliCandFx [] (by decide)

/-- A DuckDuckGo response item with every field missing. -/
def ddgEmptyItemFx : DdgItem :=
  { title := none, description := none, duration := none, views := none,
    publisher := none, content := none }

/-- Environment of the C1 counterexample: only DuckDuckGo answers, with the
degenerate item above run through the adapter embedding itself. -/
def envC1Fx : Env := { emptyEnv with ddg := search_candidates_from_ddg (some [ddgEmptyItemFx]) }

/-- Topic of the C1 counterexample (no curated key matches). -/
def topicC1Fx : Topic := { title := "量子计算", current_level := .beginner, description := "" }

/-- Counterexample to C1: the pipeline returns a non-absent recommendation
whose url is the placeholder `#` — not a well-formed absolute URL — inherited
from a DuckDuckGo result with no content link. -/
theorem partial_result_returned_cex :
    (get_ai_video_recommendation envC1Fx 0 [] topicC1Fx none).1 =
      some { title := "No Title", url := "#", reason := ruleReason } ∧
    isHttpUrl "#" = false := by
  decide

theorem candidatesWithFallback_good {env : Env} {title : String}
    (hc : ∀ c ∈ (aggregate env).1, c.title ≠ "" ∧ isHttpUrl c.url = true) :
    ∀ c ∈ candidatesWithFallback env title, c.title ≠ "" ∧ isHttpUrl c.url = true := by
  intro c hmem
  cases hagg : (aggregate env).1 with
  | nil =>
      simp only [candidatesWithFallback, hagg, List.isEmpty_nil, if_true] at hmem
      cases hkv : hardcodedLookup title with
      | none =>
          rw [hkv] at hmem
          simp at hmem
      | some kv =>
          rw [hkv] at hmem
          rw [List.mem_singleton] at hmem
          subst hmem
          exact hardcoded_values_good kv (List.mem_of_find?_eq_some hkv)
  | cons a as =>
      simp only [candidatesWithFallback, hagg] at hmem
      simp at hmem
      exact hc c (by rw [hagg, List.mem_cons]; exact hmem)

/-- C1 (amended): the pipeline always returns either the full
title/url/reason triple or `none`, and the returned title is non-empty with
an absolute http(s) url whenever every aggregated candidate and every stored
cache row satisfies that invariant (curated, blind-suggestion and cache-hit
outputs then do too); candidate fields themselves are not validated, so a
source yielding an empty title or the DuckDuckGo placeholder url `#`
propagates verbatim into the result. -/
theorem result_complete_under_good_sources {env : Env} {now : Nat}
    {entries : List CacheEntry} {topic : Topic} {log : Option LearningLog}
    {r : Recommendation}
    (hc : ∀ c ∈ (aggregate env).1, c.title ≠ "" ∧ isHttpUrl c.url = true)
    (he : ∀ e ∈ entries, e.video_title ≠ "" ∧ isHttpUrl e.video_url = true)
    (hr : (get_ai_video_recommendation env now entries topic log).1 = some r) :
    r.title ≠ "" ∧ isHttpUrl r.url = true := by
  cases hcl : cacheLookup now entries (deriveKeywords topic log) topic.current_level.code with
  | some c =>
      rw [pipeline_hit hcl] at hr
      simp only [Option.some.injEq] at hr
      subst hr
      exact he c (cacheLookup_some hcl).1
  | none =>
      cases hcf : candidatesWithFallback env topic.title with
      | nil =>
          rw [pipeline_miss_blind hcl hcf] at hr
          exact call_llm_for_blind_fields hr
      | cons c cs =>
          rw [pipeline_miss_sel hcl hcf] at hr
          cases hsel : call_llm_to_select env.apiKey env.selectResp (c :: cs) with
          | some r2 =>
              simp only [hsel, Option.some.injEq] at hr
              subst hr
              obtain ⟨c2, hc2, ht, hu⟩ := call_llm_to_select_mem hsel
              have hg := candidatesWithFallback_good hc c2 (by rw [hcf]; exact hc2)
              exact ⟨by rw [ht]; exact hg.1, by rw [hu]; exact hg.2⟩
          | none =>
              simp only [hsel, Option.some.injEq] at hr
              subst hr
              have hg := candidatesWithFallback_good hc c
                (by rw [hcf]; exact List.mem_cons_self c cs)
              exact ⟨hg.1, hg.2⟩

/-- Witness for the amended C1: with one well-formed Bilibili candidate the
rule-based result has a non-empty title and an absolute https url. -/
theorem result_complete_witness :
    (get_ai_video_recommendation env1Fx 3 [] topicPyFx none).1 = some recFx ∧
    recFx.title ≠ "" ∧ isHttpUrl recFx.url = true :=
  ⟨by decide,
   @result_complete_under_good_sources env1Fx 3 [] topicPyFx none recFx
     (by decide) (by decide) (by decide)⟩

/-- C8: every source adapter is a total function returning a (possibly
empty) candidate list — each raised library exception is caught at the
adapter boundary (the failure constructors of its response type) — and every
failing interaction (network error/timeout, non-200 status, unparseable
body) degrades to zero candidates from that source only. -/
theorem adapter_failures_degrade :
    (∀ limit : Nat, search_bilibili_candidates .netFail .netFail limit = []) ∧
    (∀ (s s2 : Nat) (b : BiliApiBody) (m : List String) (limit : Nat), s ≠ 200 → s2 ≠ 200 →
        search_bilibili_candidates (.resp s b) (.resp s2 m) limit = []) ∧
    (∀ limit : Nat, search_bilibili_candidates (.resp 200 .malformed) .netFail limit = []) ∧
    (∀ (s2 : Nat) (m : List String) (limit : Nat), s2 ≠ 200 →
        search_bilibili_candidates (.resp 200 .malformed) (.resp s2 m) limit = []) ∧
    (∀ limit : Nat, search_zhihu_candidates .netFail limit = []) ∧
    (∀ (s : Nat) (b : Option (List ZhihuItem)) (limit : Nat), s ≠ 200 →
        search_zhihu_candidates (.resp s b) limit = []) ∧
    (∀ limit : Nat, search_zhihu_candidates (.resp 200 none) limit = []) ∧
    (∀ limit : Nat, search_sohu_candidates .netFail limit = []) ∧
    (∀ (s : Nat) (ms : List (String × String)) (limit : Nat), s ≠ 200 →
        search_sohu_candidates (.resp s ms) limit = []) ∧
    (∀ limit : Nat, search_360_candidates .netFail limit = []) ∧
    (∀ (s : Nat) (ls : List (String × String)) (limit : Nat), s ≠ 200 →
        search_360_candidates (.resp s ls) limit = []) ∧
    search_candidates_from_ddg none = [] := by
  refine ⟨fun limit => rfl, ?_, fun limit => rfl, ?_, fun limit => rfl, ?_,
    fun limit => rfl, fun limit => rfl, ?_, fun limit => rfl, ?_, rfl⟩
  · intro s s2 b m limit h h2
    simp [search_bilibili_candidates, biliHtmlStage, h, h2]
  · intro s2 m limit h2
    simp [search_bilibili_candidates, biliHtmlStage, h2]
  · intro s b limit h
    simp [search_zhihu_candidates, h]
  · intro s ms limit h
    simp [search_sohu_candidates, h]
  · intro s ls limit h
    simp [search_360_candidates, h]

/-- Witness for C8: concrete failing responses (status 500/412/403) make the
adapters return the empty list. -/
theorem adapter_failures_degrade_witness :
    search_bilibili_candidates (.resp 500 .malformed) (.resp 412 ["BV1xx411c7mD"]) 5 = [] ∧
    search_zhihu_candidates (.resp 403 none) 3 = [] ∧
    search_sohu_candidates (.resp 500 [("//tv.sohu.com/v/x", "视频")]) 3 = [] ∧
    search_360_candidates (.resp 502 [("https://v.qq.com/x", "视频")]) 3 = [] :=
  ⟨adapter_failures_degrade.2.1 500 412 .malformed ["BV1xx411c7mD"] 5
      (by decide) (by decide),
   adapter_failures_degrade.2.2.2.2.2.1 403 none 3 (by decide),
   adapter_failures_degrade.2.2.2.2.2.2.2.2.1 500 [("//tv.sohu.com/v/x", "视频")] 3 (by decide),
   adapter_failures_degrade.2.2.2.2.2.2.2.2.2.2.1 502 [("https://v.qq.com/x", "视频")] 3
      (by decide)⟩

/-! Loop membership lemmas for the description-truncation claim. -/

theorem zhihuLoop_mem {limit : Nat} :
    ∀ {items : List ZhihuItem} {acc : List Candidate} {c : Candidate},
      c ∈ zhihuLoop limit items acc → c ∈ acc ∨ ∃ item ∈ items, c = zhihuItemCand item := by
  intro items
  induction items with
  | nil =>
      intro acc c h
      exact Or.inl h
  | cons item rest ih =>
      intro acc c h
      unfold zhihuLoop at h
      by_cases ha : zhihuAccept item
      · rw [if_pos ha] at h
        by_cases hl : limit ≤ (acc ++ [zhihuItemCand item]).length
        · rw [if_pos hl] at h
          rcases List.mem_append.mp h with h1 | h1
          · exact Or.inl h1
          · exact Or.inr ⟨item, List.mem_cons_self _ _, List.mem_singleton.mp h1⟩
        · rw [if_neg hl] at h
          rcases ih h with h1 | ⟨it, hin, he⟩
          · rcases List.mem_append.mp h1 with h2 | h2
            · exact Or.inl h2
            · exact Or.inr ⟨item, List.mem_cons_self _ _, List.mem_singleton.mp h2⟩
          · exact Or.inr ⟨it, List.mem_cons_of_mem _ hin, he⟩
      · rw [if_neg ha] at h
        rcases ih h with h1 | ⟨it, hin, he⟩
        · exact Or.inl h1
        · exact Or.inr ⟨it, List.mem_cons_of_mem _ hin, he⟩

theorem sohuLoop_mem {limit : Nat} :
    ∀ {ms : List (String × String)} {acc : List Candidate} {c : Candidate},
      c ∈ sohuLoop limit ms acc → c ∈ acc ∨ ∃ p ∈ ms, c = sohuCand p.1 p.2 := by
  intro ms
  induction ms with
  | nil =>
      intro acc c h
      exact Or.inl h
  | cons p rest ih =>
      obtain ⟨u, t⟩ := p
      intro acc c h
      unfold sohuLoop at h
      by_cases hl : limit ≤ (acc ++ [sohuCand u t]).length
      · rw [if_pos hl] at h
        rcases List.mem_append.mp h with h1 | h1
        · exact Or.inl h1
        · exact Or.inr ⟨(u, t), List.mem_cons_self _ _, List.mem_singleton.mp h1⟩
      · rw [if_neg hl] at h
        rcases ih h with h1 | ⟨q, hin, he⟩
        · rcases List.mem_append.mp h1 with h2 | h2
          · exact Or.inl h2
          · exact Or.inr ⟨(u, t), List.mem_cons_self _ _, List.mem_singleton.mp h2⟩
        · exact Or.inr ⟨q, List.mem_cons_of_mem _ hin, he⟩

theorem so360Loop_mem {limit : Nat} :
    ∀ {ls : List (String × String)} {acc : List Candidate} {c : Candidate},
      c ∈ so360Loop limit ls acc → c ∈ acc ∨ ∃ p ∈ ls, c = so360Cand p.1 p.2 := by
  intro ls
  induction ls with
  | nil =>
      intro acc c h
      exact Or.inl h
  | cons p rest ih =>
      obtain ⟨link, t⟩ := p
      intro acc c h
      unfold so360Loop at h
      by_cases hk : so360Keep link
      · rw [if_pos hk] at h
        by_cases hl : limit ≤ (acc ++ [so360Cand link t]).length
        · rw [if_pos hl] at h
          rcases List.mem_append.mp h with h1 | h1
          · exact Or.inl h1
          · exact Or.inr ⟨(link, t), List.mem_cons_self _ _, List.mem_singleton.mp h1⟩
        · rw [if_neg hl] at h
          rcases ih h with h1 | ⟨q, hin, he⟩
          · rcases List.mem_append.mp h1 with h2 | h2
            · exact Or.inl h2
            · exact Or.inr ⟨(link, t), List.mem_cons_self _ _, List.mem_singleton.mp h2⟩
          · exact Or.inr ⟨q, List.mem_cons_of_mem _ hin, he⟩
      · rw [if_neg hk] at h
        by_cases hl : limit ≤ acc.length
        · rw [if_pos hl] at h
          exact Or.inl h
        · rw [if_neg hl] at h
          rcases ih h with h1 | ⟨q, hin, he⟩
          · exact Or.inl h1
          · exact Or.inr ⟨q, List.mem_cons_of_mem _ hin, he⟩

theorem biliHtmlLoop_mem {limit : Nat} :
    ∀ {ms seen : List String} {acc : List Candidate} {c : Candidate},
      c ∈ biliHtmlLoop limit ms seen acc → c ∈ acc ∨ ∃ bvid ∈ ms, c = biliHtmlCand bvid := by
  intro ms
  induction ms with
  | nil =>
      intro seen acc c h
      exact Or.inl h
  | cons bvid rest ih =>
      intro seen acc c h
      unfold biliHtmlLoop at h
      by_cases hs : bvid ∈ seen
      · rw [if_pos hs] at h
        rcases ih h with h1 | ⟨b, hin, he⟩
        · exact Or.inl h1
        · exact Or.inr ⟨b, List.mem_cons_of_mem _ hin, he⟩
      · rw [if_neg hs] at h
        by_cases hl : limit ≤ (acc ++ [biliHtmlCand bvid]).length
        · rw [if_pos hl] at h
          rcases List.mem_append.mp h with h1 | h1
          · exact Or.inl h1
          · exact Or.inr ⟨bvid, List.mem_cons_self _ _, List.mem_singleton.mp h1⟩
        · rw [if_neg hl] at h
          rcases ih h with h1 | ⟨b, hin, he⟩
          · rcases List.mem_append.mp h1 with h2 | h2
            · exact Or.inl h2
            · exact Or.inr ⟨bvid, List.mem_cons_self _ _, List.mem_singleton.mp h2⟩
          · exact Or.inr ⟨b, List.mem_cons_of_mem _ hin, he⟩

theorem zhihuItemCand_desc (item : ZhihuItem) :
    (zhihuItemCand item).description.length ≤ 150 ∨
    (item.type = "zvideo" ∧
      (zhihuItemCand item).description = item.obj.description.getD "") := by
  by_cases h1 : item.type = "zvideo"
  · right
    refine ⟨h1, ?_⟩
    simp [zhihuItemCand, zhihuCand, zhihuFields, h1]
  · left
    by_cases h2 : item.type = "search_result" ∧ item.obj.title.isSome
    · have : (zhihuItemCand item).description = pyTake (item.obj.content.getD "") 100 := by
        simp [zhihuItemCand, zhihuCand, zhihuFields, h1, h2]
      rw [this]
      exact le_trans (pyTake_length_le _ _) (by omega)
    · have : (zhihuItemCand item).description = "" := by
        simp [zhihuItemCand, zhihuCand, zhihuFields, h1, h2]
      rw [this]
      decide

/-- A 151-character description. -/
def longDescFx : String := ⟨List.replicate 151 'a'⟩

/-- A Zhihu `zvideo` item carrying the 151-character description. -/
def zvideoItemFx : ZhihuItem :=
  { type := "zvideo",
    obj := { title := some "视频标题", description := some longDescFx, content := none,
             id := some "123", question_id := none, voteup_count := some 5,
             author_name := some "作者" } }

set_option maxRecDepth 8192 in
/-- Counterexample to C9: the Zhihu adapter emits this `zvideo` candidate
with its 151-character description untruncated (151 > 150). -/
theorem zvideo_description_unbounded_cex :
    (search_zhihu_candidates (.resp 200 (some [zvideoItemFx])) 3).map
        (fun c => c.description.length) = [151] ∧
    ¬ 151 ≤ 150 := by
  constructor
  · decide
  · decide

/-- C9 (amended): every candidate produced by the DuckDuckGo, Bilibili, Sohu
and 360 adapters has its description bounded by 150 characters (truncation
to 150, a 100-character truncation, or short fixed strings); Zhihu
candidates obey the same bound except those from the `zvideo` branch, which
carry the source item's description verbatim and unbounded. -/
theorem descriptions_truncated_except_zvideo :
    (∀ (res : Option (List DdgItem)) (c : Candidate),
        c ∈ search_candidates_from_ddg res → c.description.length ≤ 150) ∧
    (∀ (api : HttpResp BiliApiBody) (html : HttpResp (List String)) (limit : Nat)
        (c : Candidate), c ∈ search_bilibili_candidates api html limit →
        c.description.length ≤ 150) ∧
    (∀ (res : HttpResp (List (String × String))) (limit : Nat) (c : Candidate),
        c ∈ search_sohu_candidates res limit → c.description.length ≤ 150) ∧
    (∀ (res : HttpResp (List (String × String))) (limit : Nat) (c : Candidate),
        c ∈ search_360_candidates res limit → c.description.length ≤ 150) ∧
    (∀ (res : HttpResp (Option (List ZhihuItem))) (limit : Nat) (c : Candidate),
        c ∈ search_zhihu_candidates res limit →
        c.description.length ≤ 150 ∨
        ∃ (s : Nat) (items : List ZhihuItem), res = .resp s (some items) ∧
          ∃ item ∈ items, item.type = "zvideo" ∧
            c.description = item.obj.description.getD "") := by
  have hhtml : ∀ (html : HttpResp (List String)) (limit : Nat) (c : Candidate),
      c ∈ biliHtmlStage html limit → c.description.length ≤ 150 := by
    intro html limit c h
    cases html with
    | netFail => simp [biliHtmlStage] at h
    | resp s ms =>
        by_cases hs : s = 200
        · simp only [biliHtmlStage] at h
          rw [if_pos hs] at h
          rcases biliHtmlLoop_mem h with h1 | ⟨b, _, he⟩
          · simp at h1
          · subst he
            exact (by decide : ("Parsed from search page" : String).length ≤ 150)
        · simp only [biliHtmlStage] at h
          rw [if_neg hs] at h
          simp at h
  refine ⟨?_, ?_, ?_, ?_, ?_⟩
  · intro res c h
    cases res with
    | none => simp [search_candidates_from_ddg] at h
    | some rs =>
        simp only [search_candidates_from_ddg, List.mem_map] at h
        obtain ⟨r, -, he⟩ := h
        subst he
        exact pyTake_length_le _ _
  · intro api html limit c h
    cases api with
    | netFail => exact hhtml html limit c h
    | resp s b =>
        by_cases hs : s = 200
        · simp only [search_bilibili_candidates, hs, if_true] at h
          cases b with
          | malformed => exact hhtml html limit c h
          | parsed code result =>
              cases result with
              | none => exact hhtml html limit c h
              | some videos =>
                  by_cases hc0 : code = 0
                  · simp only [hc0, if_true] at h
                    simp only [biliApiCands, List.mem_filterMap] at h
                    obtain ⟨v, -, he⟩ := h
                    cases hb : v.bvid with
                    | none => simp [hb] at he
                    | some bvid =>
                        simp only [hb] at he
                        by_cases hbe : bvid ≠ ""
                        · rw [if_pos hbe] at he
                          simp only [Option.some.injEq] at he
                          subst he
                          exact pyTake_length_le _ _
                        · rw [if_neg hbe] at he
                          simp at he
                  · simp only [hc0, if_false] at h
                    exact hhtml html limit c h
        · simp only [search_bilibili_candidates, hs, if_false] at h
          exact hhtml html limit c h
  · intro res limit c h
    cases res with
    | netFail => simp [search_sohu_candidates] at h
    | resp s ms =>
        by_cases hs : s = 200
        · simp only [search_sohu_candidates, hs, if_true] at h
          rcases sohuLoop_mem h with h1 | ⟨p, -, he⟩
          · simp at h1
          · subst he
            exact (by decide : ("搜狐视频搜索结果" : String).length ≤ 150)
        · simp only [search_sohu_candidates, hs, if_false] at h
          simp at h
  · intro res limit c h
    cases res with
    | netFail => simp [search_360_candidates] at h
    | resp s ls =>
        by_cases hs : s = 200
        · simp only [search_360_candidates, hs, if_true] at h
          rcases so360Loop_mem h with h1 | ⟨p, -, he⟩
          · simp at h1
          · subst he
            exact (by decide : ("360视频聚合搜索" : String).length ≤ 150)
        · simp only [search_360_candidates, hs, if_false] at h
          simp at h
  · intro res limit c h
    cases res with
    | netFail => simp [search_zhihu_candidates] at h
    | resp s body =>
        by_cases hs : s = 200
        · simp only [search_zhihu_candidates, hs, if_true] at h
          cases body with
          | none => simp at h
          | some items =>
              rcases zhihuLoop_mem h with h1 | ⟨item, hin, he⟩
              · simp at h1
              · subst he
                rcases zhihuItemCand_desc item with h2 | ⟨htype, hdesc⟩
                · exact Or.inl h2
                · exact Or.inr ⟨s, items, by rw [hs], item, hin, htype, hdesc⟩
        · simp only [search_zhihu_candidates, hs, if_false] at h
          simp at h

/-- A Bilibili API video whose description is 200 characters long. -/
def biliVideoLongFx : BiliVideo :=
  { title := some "长简介视频", bvid := some "BV1yy411c7aa",
    description := some ⟨List.replicate 200 'b'⟩, duration := some "3:00",
    play := some 7, author := some "up主" }

/-- Witness for the amended C9: the Bilibili API stage truncates the
200-character description above to 150. -/
theorem descriptions_truncated_witness :
    biliApiCand biliVideoLongFx "BV1yy411c7aa" ∈
      search_bilibili_candidates (.resp 200 (.parsed 0 (some [biliVideoLongFx]))) .netFail 5 ∧
    (biliApiCand biliVideoLongFx "BV1yy411c7aa").description.length ≤ 150 :=
  ⟨by decide,
   descriptions_truncated_except_zvideo.2.1 (.resp 200 (.parsed 0 (some [biliVideoLongFx])))
     .netFail 5 (biliApiCand biliVideoLongFx "BV1yy411c7aa") (by decide)⟩

end SkillPick
